import Mathlib

set_option maxRecDepth 2000

/-!
Shallow embedding of the tool-calling orchestration library
(`runWithTools`, `validateArgsWithZod`, `convertToZodSchema`,
`autoTrimTools`, and the argument heuristic of
`createToolsFromOpenAPISpec`'s generated tool functions).

JSON values are modelled by the inductive `JsonVal`; machine code that can
throw is modelled with `Except String`; the model endpoint (`ai.run`) is an
explicit function from call inputs to responses.
-/

/-- A JSON value, as produced/consumed by the JavaScript source.
Numbers are modelled as integers (the schemas in play only distinguish
`number` versus `integer`, and every argument the claims exercise is
integral). -/
inductive JsonVal where
  | null : JsonVal
  | bool : Bool → JsonVal
  | num : Int → JsonVal
  | str : String → JsonVal
  | arr : List JsonVal → JsonVal
  | obj : List (String × JsonVal) → JsonVal
  deriving BEq, Repr

/-- Field lookup on a JSON object field list: the value of the first
binding of `k` (JavaScript property read on a plain object). -/
def getField (fields : List (String × JsonVal)) (k : String) : Option JsonVal :=
  (fields.find? (fun p => p.1 == k)).map (fun p => p.2)

/-- JavaScript truthiness of a JSON value (`!v` in the source negates this). -/
def jsTruthy : JsonVal → Bool
  | .null => false
  | .bool b => b
  | .num n => n != 0
  | .str s => s ≠ ""
  | .arr _ => true
  | .obj _ => true

/-- Truthiness of `args.k` for an arguments object: absent fields are
`undefined`, hence falsy. -/
def fieldTruthy (args : List (String × JsonVal)) (k : String) : Bool :=
  match getField args k with
  | none => false
  | some v => jsTruthy v

/-- JavaScript property access `v.k` as performed by the source on values of
unknown shape: reading a property of `null` throws a `TypeError`; reading a
missing property of any non-null value yields `undefined` (here `none`). -/
def jsGetProp (v : JsonVal) (k : String) : Except String (Option JsonVal) :=
  match v with
  | .null => .error ("TypeError: Cannot read properties of null reading " ++ k)
  | .obj fields => .ok (getField fields k)
  | _ => .ok none

/-- Case analysis on an optional value (`if (x !== undefined)` in the
source): `n` when absent, `s x` when present. -/
def optCase {A B : Type} (x : Option A) (n : B) (s : A → B) : B :=
  match x with
  | none => n
  | some a => s a

@[simp] theorem optCase_none {A B : Type} (n : B) (s : A → B) :
    optCase none n s = n := rfl

@[simp] theorem optCase_some {A B : Type} (a : A) (n : B) (s : A → B) :
    optCase (some a) n s = s a := rfl

/-- Case analysis on a possibly-thrown result (`try`/`catch` in the
source). -/
def exCase {A B : Type} (x : Except String A) (onOk : A → B) (onErr : String → B) : B :=
  match x with
  | .ok a => onOk a
  | .error e => onErr e

@[simp] theorem exCase_ok {A B : Type} (a : A) (f : A → B) (g : String → B) :
    exCase (.ok a) f g = f a := rfl

@[simp] theorem exCase_error {A B : Type} (e : String) (f : A → B) (g : String → B) :
    exCase (Except.error e) f g = g e := rfl

/-- Sequencing of a possibly-throwing step: a thrown error propagates,
otherwise the continuation runs on the value. -/
def exBind {A B : Type} (x : Except String A) (f : A → Except String B) : Except String B :=
  match x with
  | .error e => .error e
  | .ok a => f a

@[simp] theorem exBind_ok {A B : Type} (a : A) (f : A → Except String B) :
    exBind (.ok a) f = f a := rfl

@[simp] theorem exBind_error {A B : Type} (e : String) (f : A → Except String B) :
    exBind (Except.error e) f = .error e := rfl

/-- Escape a string for JSON serialization (quote and backslash). -/
def jsonEscape (s : String) : String :=
  String.join (s.data.map (fun c =>
    if c = '"' then "\\\"" else if c = '\\' then "\\\\" else String.singleton c))

/-- Serialize a string as a JSON string literal. -/
def jsonQuote (s : String) : String := "\"" ++ jsonEscape s ++ "\""

mutual
/-- `JSON.stringify` on a JSON value. -/
def jsonStringify : JsonVal → String
  | .null => "null"
  | .bool true => "true"
  | .bool false => "false"
  | .num n => toString n
  | .str s => jsonQuote s
  | .arr xs => "[" ++ String.intercalate "," (jsonStringifyList xs) ++ "]"
  | .obj fs => "\x7b" ++ String.intercalate "," (jsonStringifyFields fs) ++ "\x7d"

/-- Serialize a list of array elements. -/
def jsonStringifyList : List JsonVal → List String
  | [] => []
  | x :: rest => jsonStringify x :: jsonStringifyList rest

/-- Serialize a list of object fields. -/
def jsonStringifyFields : List (String × JsonVal) → List String
  | [] => []
  | (k, v) :: rest => (jsonQuote k ++ ":" ++ jsonStringify v) :: jsonStringifyFields rest
end

/-- A JSON-Schema node as consumed by `convertToZodSchema`: a `type` string,
an optional `items` sub-schema and a (possibly empty) `properties` map.
Absent `items`/`properties` keys are `none`/`[]`. -/
inductive JsonSchema where
  | mk : String → Option JsonSchema → List (String × JsonSchema) → JsonSchema
  deriving BEq, Repr

/-- The `type` string of a schema node. -/
def JsonSchema.typeOf : JsonSchema → String
  | .mk t _ _ => t

/-- The zod validator object built by `convertToZodSchema` (the subset of
zod's combinator language the source uses: `z.string()`, `z.number()`,
`z.number().int()`, `z.boolean()`, `z.array`, `z.object`). -/
inductive Zod where
  | string : Zod
  | number : Zod
  | int : Zod
  | boolean : Zod
  | array : Zod → Zod
  | object : List (String × Zod) → Zod
  deriving BEq, Repr

mutual
/-- `convertToZodSchema` (src/src/logger.ts:79-100): switches on
`schema.type`; the `array` case recurses into `schema.items` (a `TypeError`
is thrown when `items` is absent, since the recursive call reads
`undefined.type`); the `object` case recurses into each property; every
other `type` throws `Unsupported schema type`. -/
def convertToZodSchema : JsonSchema → Except String Zod
  | .mk t items props =>
    if t = "string" then .ok .string
    else if t = "number" then .ok .number
    else if t = "integer" then .ok .int
    else if t = "boolean" then .ok .boolean
    else if t = "array" then
      match items with
      | none => .error ("TypeError: Cannot read properties of undefined reading type")
      | some s => exCase (convertToZodSchema s) (fun z => .ok (.array z)) (fun e => .error e)
    else if t = "object" then
      exCase (convertFields props) (fun zs => .ok (.object zs)) (fun e => .error e)
    else .error ("Unsupported schema type: " ++ t)

/-- Conversion of an object schema's properties, in declaration order,
propagating the first thrown error. -/
def convertFields : List (String × JsonSchema) → Except String (List (String × Zod))
  | [] => .ok []
  | (k, s) :: rest =>
    exBind (convertToZodSchema s) (fun z =>
      exBind (convertFields rest) (fun zs => .ok ((k, z) :: zs)))
end

mutual
/-- Whether a JSON value passes a zod validator (`schema.parse` succeeds).
`z.object` requires every declared key to be present and valid; extra keys
are stripped, not rejected (zod's default). With integer-modelled numbers,
`z.number()` and `z.number().int()` coincide. -/
def zodMatches : Zod → JsonVal → Bool
  | .string, .str _ => true
  | .string, _ => false
  | .number, .num _ => true
  | .number, _ => false
  | .int, .num _ => true
  | .int, _ => false
  | .boolean, .bool _ => true
  | .boolean, _ => false
  | .array s, .arr xs => zodMatchesList s xs
  | .array _, _ => false
  | .object ps, .obj fields => zodMatchesProps ps fields
  | .object _, _ => false

/-- Every element of an array matches the item validator. -/
def zodMatchesList : Zod → List JsonVal → Bool
  | _, [] => true
  | s, x :: rest => zodMatches s x && zodMatchesList s rest

/-- Every declared property is present and matches its validator. -/
def zodMatchesProps : List (String × Zod) → List (String × JsonVal) → Bool
  | [], _ => true
  | (k, s) :: rest, fields =>
    (match getField fields k with
     | some v => zodMatches s v
     | none => false) && zodMatchesProps rest fields
end

/-- `validateArgsWithZod` (src/src/logger.ts:102-121): builds a zod schema
from every declared property (this construction is *outside* the
`try`/`catch`, so construction-time throws escape), wraps it in
`z.object`, then parses the candidate arguments inside `try`/`catch`,
converting a parse failure to `false`. -/
def validateArgsWithZod (args : JsonVal) (properties : List (String × JsonSchema)) :
    Except String Bool :=
  exBind (convertFields properties) (fun zs =>
    .ok (match args with
         | .obj fields => zodMatchesProps zs fields
         | _ => false))

/-- A conversation turn (`RoleScopedChatInput`, plus the `name` field the
source attaches to tool-role turns). -/
structure Message where
  role : String
  content : String
  name : Option String := none
  deriving BEq, Repr

/-- The result of a tool invoker: `fn(args)` either resolves to a JSON
value or rejects with an error message. -/
def Invoker : Type := JsonVal → Except String JsonVal

/-- The parameters object of a tool declaration
(`{type, properties, required}`). -/
structure ToolParams where
  type : String
  properties : List (String × JsonSchema)
  required : List String

/-- `AiTextGenerationToolInputWithFunction`: a tool descriptor with an
optional executable invoker; `parameters` is optional in the source type. -/
structure ToolDesc where
  name : String
  description : String
  parameters : Option ToolParams
  function : Option Invoker

/-- A tool call requested by the model (`{name, arguments}`). -/
structure ToolCall where
  name : String
  arguments : JsonVal

/-- The tool entry offered to the model: `{type: "function", function:
{...tool, function: undefined}}` — same descriptor fields, with the
executable invoker forced to `undefined`. -/
structure OfferedFn where
  name : String
  description : String
  parameters : Option ToolParams
  function : Option Invoker

/-- An element of the `tools` array passed to `ai.run`. -/
structure OfferedTool where
  type : String
  function : OfferedFn

/-- `{type: "function", function: {...tool, function: undefined}}`
(src/src/runWithTools.ts:86-89 and 100-103). -/
def stripTool (t : ToolDesc) : OfferedTool :=
  { type := "function"
    function := { name := t.name, description := t.description,
                  parameters := t.parameters, function := none } }

/-- The input of one `ai.run` call: the messages, the `stream` flag, and
the `tools` array when one is passed (`none` on the final call, which omits
the `tools` key). -/
structure AiInput where
  messages : List Message
  stream : Bool
  toolsOffered : Option (List OfferedTool)

/-- The model endpoint's structured response shape
(`{response?, tool_calls?}`); individual `tool_calls` entries may be null,
which `filter(Boolean)` later drops. -/
structure AiResponse where
  response : Option String
  tool_calls : Option (List (Option ToolCall))

/-- The model endpoint: a deterministic function from call input to
response (`ai.run(model, input)`). -/
def AiModel : Type := AiInput → AiResponse

/-- `response.tool_calls?.filter(Boolean) ?? []`
(src/src/runWithTools.ts:148). -/
def effectiveCalls (resp : AiResponse) : List ToolCall :=
  (resp.tool_calls.getD []).filterMap id

/-- The assistant turn recording a tool-call request
(src/src/runWithTools.ts:153-156). -/
def assistantTurn (tc : ToolCall) : Message :=
  { role := "assistant"
    content := "\x7b\"name\":" ++ jsonQuote tc.name ++ ",\"arguments\":"
               ++ jsonStringify tc.arguments ++ "\x7d" }

/-- The outcome of actually invoking a tool's function
(src/src/runWithTools.ts:188-211): on success a tool-role turn holding the
serialized result, on a thrown failure a tool-role turn embedding the tool
name and the failure reason. -/
def invokeResultTurn (sel : ToolDesc) (fn : Invoker) (args : JsonVal) :
    Except String (Option Message) :=
  exCase (fn args)
    (fun result =>
      .ok (some { role := "tool", content := jsonStringify result, name := some sel.name }))
    (fun msg =>
      .ok (some { role := "tool"
                  content := "Error executing tool " ++ sel.name ++ ": " ++ msg
                  name := some sel.name }))

/-- Processing of a single requested tool call
(src/src/runWithTools.ts:158-216), yielding the tool-role turn it
contributes, if any: an unknown tool name is skipped; a descriptor whose
invoker **or** parameters field is undefined is skipped; with strict
validation on, arguments failing validation are skipped (and a validator
throw propagates); otherwise the invoker runs on the raw arguments. -/
def processOneCall (inputTools : List ToolDesc) (strict : Bool) (tc : ToolCall) :
    Except String (Option Message) :=
  optCase (inputTools.find? (fun t => t.name == tc.name)) (.ok none) (fun selected =>
    optCase selected.function (.ok none) (fun fn =>
      optCase selected.parameters (.ok none) (fun params =>
        if strict then
          exBind (validateArgsWithZod tc.arguments params.properties) (fun valid =>
            if valid then invokeResultTurn selected fn tc.arguments else .ok none)
        else invokeResultTurn selected fn tc.arguments)))

/-- The tool-role turns contributed by one round's tool calls, in request
order (each callback pushes its assistant turn synchronously before any
await, so all assistant turns precede all tool-result turns of a round;
the tool-result turns of immediately-resolving invokers land in request
order). -/
def processCalls (inputTools : List ToolDesc) (strict : Bool) :
    List ToolCall → Except String (List Message)
  | [] => .ok []
  | tc :: rest =>
    match processOneCall inputTools strict tc with
    | .error e => .error e
    | .ok mt =>
      match processCalls inputTools strict rest with
      | .error e => .error e
      | .ok ms => .ok (mt.toList ++ ms)

/-- The observable outcome of `runAndProcessToolCall`: the returned final
response, the inputs of the tool-offering model calls (in order), the
input of the final no-tools call, and how many rounds dispatched at least
one tool call. -/
structure RunResult where
  output : AiResponse
  loopCalls : List AiInput
  finalInput : AiInput
  rounds : Nat

/-- Wrapping of an escaping error by a `catch` block that rethrows with a
context prefix. -/
def wrapErr (p : String) : Except String RunResult → Except String RunResult
  | .error e => .error (p ++ e)
  | .ok r => .ok r

@[simp] theorem wrapErr_ok (p : String) (r : RunResult) : wrapErr p (.ok r) = .ok r := rfl

@[simp] theorem wrapErr_error (p e : String) : wrapErr p (.error e) = .error (p ++ e) := rfl

/-- `runAndProcessToolCall` (src/src/runWithTools.ts:107-254): call the
model with the stripped tool offers and `stream: false`; push an assistant
turn per requested call, then the tool-result turns; if the remaining
budget is positive and at least one call was requested, decrement and
recurse; otherwise issue the final call with no `tools` key and
`stream = streamFinalResponse` and return its output verbatim. Any
escaping error is wrapped with `Error in runAndProcessToolCall: ` at each
level. -/
def runLoop (ai : AiModel) (offered : List OfferedTool) (inputTools : List ToolDesc)
    (strict streamFinal : Bool) : Nat → List Message → Except String RunResult
  | budget, messages =>
    wrapErr ("Error in runAndProcessToolCall: ")
      (exBind (processCalls inputTools strict
          (effectiveCalls (ai ⟨messages, false, some offered⟩))) (fun toolTurns =>
         if _h : 0 < budget ∧
             (effectiveCalls (ai ⟨messages, false, some offered⟩)).isEmpty = false then
           exBind (runLoop ai offered inputTools strict streamFinal (budget - 1)
               ((messages ++
                 (effectiveCalls (ai ⟨messages, false, some offered⟩)).map assistantTurn)
                ++ toolTurns)) (fun r =>
             .ok { r with loopCalls := ⟨messages, false, some offered⟩ :: r.loopCalls,
                          rounds := r.rounds + 1 })
         else
           .ok { output := ai ⟨(messages ++
                   (effectiveCalls (ai ⟨messages, false, some offered⟩)).map assistantTurn)
                   ++ toolTurns, streamFinal, none⟩
                 loopCalls := [⟨messages, false, some offered⟩]
                 finalInput := ⟨(messages ++
                   (effectiveCalls (ai ⟨messages, false, some offered⟩)).map assistantTurn)
                   ++ toolTurns, streamFinal, none⟩
                 rounds := if (effectiveCalls (ai ⟨messages, false, some offered⟩)).isEmpty
                           then 0 else 1 }))
  termination_by budget _ => budget
  decreasing_by simp_wf; omega

/-- A tool selector (`trimFunction`): receives the full descriptors, the
endpoint and the messages; returns the chosen descriptors together with
the trace of model calls it made itself (it may throw). -/
def TrimFunction : Type :=
  List ToolDesc → AiModel → List Message → Except String (List ToolDesc × List AiInput)

/-- The default `trimFunction`: identity, no extra model call
(src/src/runWithTools.ts:66-71). -/
def defaultTrim : TrimFunction := fun tools _ _ => .ok (tools, [])

/-- `runWithTools` (src/src/runWithTools.ts:29-271): run the (always
defined, defaulted) trim function on the full descriptors, rebuild the
offer list by stripping each chosen descriptor's invoker, then run the
recursive loop on a copy of the caller's messages. A loop error is wrapped
once more with `Error in runWithTools: `; the trim step sits outside that
`try`, so its errors propagate unwrapped. -/
def runWithToolsModel (ai : AiModel) (inputTools : List ToolDesc) (trimF : TrimFunction)
    (strict stream : Bool) (maxRecursiveToolRuns : Nat) (msgs : List Message) :
    Except String (List AiInput × RunResult) :=
  exBind (trimF inputTools ai msgs) (fun ct =>
    exCase (runLoop ai (ct.1.map stripTool) inputTools strict stream maxRecursiveToolRuns msgs)
      (fun r => .ok (ct.2, r))
      (fun e => .error ("Error in runWithTools: " ++ e)))

/-- Serialization of a conversation for the auto-trim prompt
(`JSON.stringify(messages)`): each turn serializes its `role` and
`content` keys, plus `name` when present (`undefined` keys are dropped by
`JSON.stringify`). -/
def msgToJson (m : Message) : JsonVal :=
  .obj ([("role", .str m.role), ("content", .str m.content)] ++
        (match m.name with
         | some n => [("name", JsonVal.str n)]
         | none => []))

/-- `JSON.stringify(messages)` for the auto-trim prompt. -/
def stringifyMessages (msgs : List Message) : String :=
  jsonStringify (.arr (msgs.map msgToJson))

/-- The synthetic `chooseTool` descriptor offered by `autoTrimTools`
(src/src/logger.ts:135-151); it carries no executable function. -/
def chooseToolsOffer : OfferedTool :=
  { type := "function"
    function :=
      { name := "chooseTool"
        description := "This tool will choose the best tools for a given task"
        parameters := some
          { type := "object"
            properties :=
              [("tools", JsonSchema.mk ("array") (some (JsonSchema.mk ("string") none [])) [])]
            required := ["tools"] }
        function := none } }

/-- The prompt sent by `autoTrimTools` (src/src/logger.ts:153). -/
def autoTrimPrompt (tools : List ToolDesc) (messages : List Message) : String :=
  "For the following prompt, please find the best tool names that will be suitable to complete some tasks. For this, you must run the \"chooseTool\" tool. \nHere are the available tool names to choose from: "
  ++ String.intercalate ", " (tools.map (fun t => t.name))
  ++ ". \nHere are the messages: \n\n" ++ stringifyMessages messages ++ "."

/-- The single model call `autoTrimTools` issues when it engages. -/
def autoTrimInput (tools : List ToolDesc) (messages : List Message) : AiInput :=
  ⟨[{ role := "user", content := autoTrimPrompt tools messages }], false,
   some [chooseToolsOffer]⟩

/-- `autoTrimTools` (src/src/logger.ts:123-191): below 5 candidate tools it
only logs and returns the set unchanged (no model call); otherwise it
issues exactly one model call offering the synthetic `chooseTool` tool,
drops falsy entries from the response's `tool_calls`, reads
`chooseToolCalls[0].arguments.tools` (a `TypeError` escapes when
`arguments` is null), and filters the candidates to the returned names
when that value is an array — otherwise the candidates pass through
unchanged. The returned trace lists the model calls made. -/
def autoTrimTools (tools : List ToolDesc) (ai : AiModel) (messages : List Message) :
    Except String (List ToolDesc × List AiInput) :=
  if tools.length < 5 then .ok (tools, [])
  else
    match ((ai (autoTrimInput tools messages)).tool_calls.getD []).filterMap id with
    | [] => .ok (tools, [autoTrimInput tools messages])
    | c :: _ =>
      exBind (jsGetProp c.arguments ("tools")) (fun tval =>
        match tval with
        | some (.arr chosen) =>
          .ok (tools.filter (fun t => chosen.contains (JsonVal.str t.name)),
               [autoTrimInput tools messages])
        | _ => .ok (tools, [autoTrimInput tools messages]))

/-- The guard of the flat-arguments heuristic in the tool functions built
by `createToolsFromOpenAPISpec` (src/src/createToolsFromOpenAPISpec.ts:313-320):
the arguments object is non-empty and `args.header`, `args.query`,
`args.cookie`, `args.formData`, `args.body` are all falsy. `args.path` is
not consulted. -/
def hallucinatedQueryCond (args : List (String × JsonVal)) : Bool :=
  decide (0 < args.length)
  && !(fieldTruthy args ("header")) && !(fieldTruthy args ("query"))
  && !(fieldTruthy args ("cookie")) && !(fieldTruthy args ("formData"))
  && !(fieldTruthy args ("body"))

/-- The effect of `args.query = args`
(src/src/createToolsFromOpenAPISpec.ts:323): the object gains (or
overwrites) a `query` key whose value is a reference to the object itself;
the self-reference is represented by `none`. -/
def setSelfQuery (args : List (String × JsonVal)) : List (String × Option JsonVal) :=
  if (args.find? (fun p => p.1 == "query")).isSome then
    args.map (fun p => if p.1 == "query" then (p.1, none) else (p.1, some p.2))
  else args.map (fun p => (p.1, some p.2)) ++ [("query", none)]

/-- `for (const key in v)` enumeration of a JavaScript value: own
enumerable properties of an object, index keys of an array or string, and
nothing for primitives or absent values. -/
def jsEnumEntries : JsonVal → List (String × Option JsonVal)
  | .obj fs => fs.map (fun p => (p.1, some p.2))
  | .arr xs => xs.enum.map (fun p => (toString p.1, some p.2))
  | .str s => s.data.enum.map (fun p => (toString p.1, some (JsonVal.str (String.singleton p.2))))
  | _ => []

/-- The key/value pairs the generated tool function appends to the query
string (src/src/createToolsFromOpenAPISpec.ts:389-392), after the
heuristic of lines 313-324 ran: when the guard fired they are the entries
of the whole (now self-referential) arguments object, otherwise the
enumeration of `args.query`. A `none` value is the self-reference. -/
def queryEntriesSource (args : List (String × JsonVal)) : List (String × Option JsonVal) :=
  if hallucinatedQueryCond args then setSelfQuery args
  else
    match getField args "query" with
    | some v => jsEnumEntries v
    | none => []

/-- The number of dispatch rounds recorded in a run outcome, when the run
succeeded. -/
def roundsOf : Except String RunResult → Option Nat
  | .ok r => some r.rounds
  | .error _ => none

theorem wrapErr_ok_iff (p : String) (x : Except String RunResult) (r : RunResult) :
    wrapErr p x = .ok r ↔ x = .ok r := by
  cases x <;> simp [wrapErr]


theorem processOneCall_of_find_none (tools : List ToolDesc) (strict : Bool) (tc : ToolCall)
    (h : tools.find? (fun t => t.name == tc.name) = none) :
    processOneCall tools strict tc = .ok none := by
  unfold processOneCall
  rw [h]
  simp only [optCase_none]

theorem processOneCall_of_no_fn (tools : List ToolDesc) (strict : Bool) (tc : ToolCall)
    (sel : ToolDesc) (h : tools.find? (fun t => t.name == tc.name) = some sel)
    (hf : sel.function = none) :
    processOneCall tools strict tc = .ok none := by
  unfold processOneCall
  rw [h]
  simp only [optCase_some]
  rw [hf]
  simp only [optCase_none]

theorem processOneCall_of_no_params (tools : List ToolDesc) (strict : Bool) (tc : ToolCall)
    (sel : ToolDesc) (h : tools.find? (fun t => t.name == tc.name) = some sel)
    (hp : sel.parameters = none) :
    processOneCall tools strict tc = .ok none := by
  unfold processOneCall
  rw [h]
  simp only [optCase_some]
  cases hf : sel.function with
  | none => simp only [optCase_none]
  | some fn =>
    simp only [optCase_some]
    rw [hp]
    simp only [optCase_none]

theorem processOneCall_not_strict (tools : List ToolDesc) (tc : ToolCall)
    (sel : ToolDesc) (fn : Invoker) (ps : ToolParams)
    (h : tools.find? (fun t => t.name == tc.name) = some sel)
    (hf : sel.function = some fn) (hp : sel.parameters = some ps) :
    processOneCall tools false tc = invokeResultTurn sel fn tc.arguments := by
  unfold processOneCall
  rw [h]
  simp only [optCase_some]
  rw [hf]
  simp only [optCase_some]
  rw [hp]
  simp only [optCase_some]
  rw [if_neg (by simp)]

theorem processOneCall_strict_throw (tools : List ToolDesc) (tc : ToolCall)
    (sel : ToolDesc) (fn : Invoker) (ps : ToolParams) (e : String)
    (h : tools.find? (fun t => t.name == tc.name) = some sel)
    (hf : sel.function = some fn) (hp : sel.parameters = some ps)
    (hv : validateArgsWithZod tc.arguments ps.properties = .error e) :
    processOneCall tools true tc = .error e := by
  unfold processOneCall
  rw [h]
  simp only [optCase_some]
  rw [hf]
  simp only [optCase_some]
  rw [hp]
  simp only [optCase_some]
  rw [if_pos trivial, hv]
  simp only [exBind_error]

theorem processOneCall_strict_invalid (tools : List ToolDesc) (tc : ToolCall)
    (sel : ToolDesc) (fn : Invoker) (ps : ToolParams)
    (h : tools.find? (fun t => t.name == tc.name) = some sel)
    (hf : sel.function = some fn) (hp : sel.parameters = some ps)
    (hv : validateArgsWithZod tc.arguments ps.properties = .ok false) :
    processOneCall tools true tc = .ok none := by
  unfold processOneCall
  rw [h]
  simp only [optCase_some]
  rw [hf]
  simp only [optCase_some]
  rw [hp]
  simp only [optCase_some]
  rw [if_pos trivial, hv]
  simp only [exBind_ok]
  rw [if_neg (by simp)]

theorem processOneCall_strict_valid (tools : List ToolDesc) (tc : ToolCall)
    (sel : ToolDesc) (fn : Invoker) (ps : ToolParams)
    (h : tools.find? (fun t => t.name == tc.name) = some sel)
    (hf : sel.function = some fn) (hp : sel.parameters = some ps)
    (hv : validateArgsWithZod tc.arguments ps.properties = .ok true) :
    processOneCall tools true tc = invokeResultTurn sel fn tc.arguments := by
  unfold processOneCall
  rw [h]
  simp only [optCase_some]
  rw [hf]
  simp only [optCase_some]
  rw [hp]
  simp only [optCase_some]
  rw [if_pos trivial, hv]
  simp only [exBind_ok]
  rw [if_pos trivial]

theorem invokeResultTurn_isOk (sel : ToolDesc) (fn : Invoker) (args : JsonVal) :
    ∃ m, invokeResultTurn sel fn args = .ok (some m) := by
  unfold invokeResultTurn
  cases hres : fn args with
  | ok result =>
    refine ⟨{ role := "tool", content := jsonStringify result, name := some sel.name }, ?_⟩
    simp only [exCase_ok]
  | error msg =>
    refine ⟨{ role := "tool", content := "Error executing tool " ++ sel.name ++ ": " ++ msg,
              name := some sel.name }, ?_⟩
    simp only [exCase_error]

theorem processOneCall_ok_of_not_strict (tools : List ToolDesc) (tc : ToolCall) :
    ∃ mt, processOneCall tools false tc = .ok mt := by
  cases hfind : tools.find? (fun t => t.name == tc.name) with
  | none => exact ⟨none, processOneCall_of_find_none tools false tc hfind⟩
  | some sel =>
    cases hfn : sel.function with
    | none => exact ⟨none, processOneCall_of_no_fn tools false tc sel hfind hfn⟩
    | some fn =>
      cases hps : sel.parameters with
      | none => exact ⟨none, processOneCall_of_no_params tools false tc sel hfind hps⟩
      | some ps =>
        obtain ⟨m, hm⟩ := invokeResultTurn_isOk sel fn tc.arguments
        exact ⟨some m, by
          rw [processOneCall_not_strict tools tc sel fn ps hfind hfn hps, hm]⟩
theorem processCalls_ok_of_not_strict (tools : List ToolDesc) :
    ∀ calls, ∃ ts, processCalls tools false calls = .ok ts := by
  intro calls
  induction calls with
  | nil => exact ⟨[], rfl⟩
  | cons tc rest ih =>
    obtain ⟨mt, hmt⟩ := processOneCall_ok_of_not_strict tools tc
    obtain ⟨ts, hts⟩ := ih
    exact ⟨mt.toList ++ ts, by simp [processCalls, hmt, hts]⟩

theorem runLoop_ok_of_not_strict (ai : AiModel) (off : List OfferedTool)
    (tools : List ToolDesc) (stream : Bool) :
    ∀ budget msgs, ∃ r, runLoop ai off tools false stream budget msgs = .ok r := by
  intro budget
  induction budget with
  | zero =>
    intro msgs
    obtain ⟨ts, hts⟩ := processCalls_ok_of_not_strict tools
      (effectiveCalls (ai ⟨msgs, false, some off⟩))
    rw [runLoop, hts]
    simp only [exBind_ok]
    rw [dif_neg (by simp)]
    exact ⟨_, wrapErr_ok _ _⟩
  | succ b ih =>
    intro msgs
    obtain ⟨ts, hts⟩ := processCalls_ok_of_not_strict tools
      (effectiveCalls (ai ⟨msgs, false, some off⟩))
    rw [runLoop, hts]
    simp only [exBind_ok]
    by_cases hcond : 0 < b + 1 ∧
        (effectiveCalls (ai ⟨msgs, false, some off⟩)).isEmpty = false
    · rw [dif_pos hcond]
      obtain ⟨r, hr⟩ := ih
        ((msgs ++ (effectiveCalls (ai ⟨msgs, false, some off⟩)).map assistantTurn) ++ ts)
      simp only [Nat.add_sub_cancel]
      rw [hr]
      simp only [exBind_ok]
      exact ⟨_, wrapErr_ok _ _⟩
    · rw [dif_neg hcond]
      exact ⟨_, wrapErr_ok _ _⟩

theorem runLoop_final_shape (ai : AiModel) (off : List OfferedTool)
    (tools : List ToolDesc) (strict stream : Bool) :
    ∀ budget msgs r, runLoop ai off tools strict stream budget msgs = .ok r →
      r.finalInput.toolsOffered = none ∧ r.finalInput.stream = stream ∧
      r.output = ai r.finalInput := by
  intro budget
  induction budget with
  | zero =>
    intro msgs r hr
    rw [runLoop] at hr
    cases hpc : processCalls tools strict (effectiveCalls (ai ⟨msgs, false, some off⟩)) with
    | error e => rw [hpc] at hr; simp at hr
    | ok ts =>
      rw [hpc] at hr
      simp only [exBind_ok] at hr
      rw [dif_neg (by simp)] at hr
      simp only [wrapErr_ok, Except.ok.injEq] at hr
      subst hr
      exact ⟨rfl, rfl, rfl⟩
  | succ b ih =>
    intro msgs r hr
    rw [runLoop] at hr
    cases hpc : processCalls tools strict (effectiveCalls (ai ⟨msgs, false, some off⟩)) with
    | error e => rw [hpc] at hr; simp at hr
    | ok ts =>
      rw [hpc] at hr
      simp only [exBind_ok] at hr
      by_cases hcond : 0 < b + 1 ∧
          (effectiveCalls (ai ⟨msgs, false, some off⟩)).isEmpty = false
      · rw [dif_pos hcond] at hr
        simp only [Nat.add_sub_cancel] at hr
        cases hrec : runLoop ai off tools strict stream b
            ((msgs ++ (effectiveCalls (ai ⟨msgs, false, some off⟩)).map assistantTurn)
             ++ ts) with
        | error e => rw [hrec] at hr; simp at hr
        | ok r2 =>
          rw [hrec] at hr
          simp only [exBind_ok, wrapErr_ok, Except.ok.injEq] at hr
          subst hr
          exact ih _ r2 hrec
      · rw [dif_neg hcond] at hr
        simp only [wrapErr_ok, Except.ok.injEq] at hr
        subst hr
        exact ⟨rfl, rfl, rfl⟩

theorem runLoop_msgs_extend (ai : AiModel) (off : List OfferedTool)
    (tools : List ToolDesc) (strict stream : Bool) :
    ∀ budget msgs r, runLoop ai off tools strict stream budget msgs = .ok r →
      ∃ t, r.finalInput.messages = msgs ++ t := by
  intro budget
  induction budget with
  | zero =>
    intro msgs r hr
    rw [runLoop] at hr
    cases hpc : processCalls tools strict (effectiveCalls (ai ⟨msgs, false, some off⟩)) with
    | error e => rw [hpc] at hr; simp at hr
    | ok ts =>
      rw [hpc] at hr
      simp only [exBind_ok] at hr
      rw [dif_neg (by simp)] at hr
      simp only [wrapErr_ok, Except.ok.injEq] at hr
      subst hr
      exact ⟨_, (List.append_assoc _ _ _)⟩
  | succ b ih =>
    intro msgs r hr
    rw [runLoop] at hr
    cases hpc : processCalls tools strict (effectiveCalls (ai ⟨msgs, false, some off⟩)) with
    | error e => rw [hpc] at hr; simp at hr
    | ok ts =>
      rw [hpc] at hr
      simp only [exBind_ok] at hr
      by_cases hcond : 0 < b + 1 ∧
          (effectiveCalls (ai ⟨msgs, false, some off⟩)).isEmpty = false
      · rw [dif_pos hcond] at hr
        simp only [Nat.add_sub_cancel] at hr
        cases hrec : runLoop ai off tools strict stream b
            ((msgs ++ (effectiveCalls (ai ⟨msgs, false, some off⟩)).map assistantTurn)
             ++ ts) with
        | error e => rw [hrec] at hr; simp at hr
        | ok r2 =>
          rw [hrec] at hr
          simp only [exBind_ok, wrapErr_ok, Except.ok.injEq] at hr
          subst hr
          obtain ⟨t, ht⟩ := ih _ r2 hrec
          exact ⟨(effectiveCalls (ai ⟨msgs, false, some off⟩)).map assistantTurn ++ (ts ++ t),
            by rw [ht]; simp [List.append_assoc]⟩
      · rw [dif_neg hcond] at hr
        simp only [wrapErr_ok, Except.ok.injEq] at hr
        subst hr
        exact ⟨_, (List.append_assoc _ _ _)⟩

theorem runLoop_loopCalls_offer (ai : AiModel) (off : List OfferedTool)
    (tools : List ToolDesc) (strict stream : Bool) :
    ∀ budget msgs r, runLoop ai off tools strict stream budget msgs = .ok r →
      ∀ inp ∈ r.loopCalls, inp.toolsOffered = some off := by
  intro budget
  induction budget with
  | zero =>
    intro msgs r hr
    rw [runLoop] at hr
    cases hpc : processCalls tools strict (effectiveCalls (ai ⟨msgs, false, some off⟩)) with
    | error e => rw [hpc] at hr; simp at hr
    | ok ts =>
      rw [hpc] at hr
      simp only [exBind_ok] at hr
      rw [dif_neg (by simp)] at hr
      simp only [wrapErr_ok, Except.ok.injEq] at hr
      subst hr
      intro inp hinp
      simp only [List.mem_singleton] at hinp
      subst hinp
      rfl
  | succ b ih =>
    intro msgs r hr
    rw [runLoop] at hr
    cases hpc : processCalls tools strict (effectiveCalls (ai ⟨msgs, false, some off⟩)) with
    | error e => rw [hpc] at hr; simp at hr
    | ok ts =>
      rw [hpc] at hr
      simp only [exBind_ok] at hr
      by_cases hcond : 0 < b + 1 ∧
          (effectiveCalls (ai ⟨msgs, false, some off⟩)).isEmpty = false
      · rw [dif_pos hcond] at hr
        simp only [Nat.add_sub_cancel] at hr
        cases hrec : runLoop ai off tools strict stream b
            ((msgs ++ (effectiveCalls (ai ⟨msgs, false, some off⟩)).map assistantTurn)
             ++ ts) with
        | error e => rw [hrec] at hr; simp at hr
        | ok r2 =>
          rw [hrec] at hr
          simp only [exBind_ok, wrapErr_ok, Except.ok.injEq] at hr
          subst hr
          intro inp hinp
          rcases List.mem_cons.mp hinp with h1 | h2
          · subst h1; rfl
          · exact ih _ r2 hrec inp h2
      · rw [dif_neg hcond] at hr
        simp only [wrapErr_ok, Except.ok.injEq] at hr
        subst hr
        intro inp hinp
        simp only [List.mem_singleton] at hinp
        subst hinp
        rfl

theorem runLoop_rounds_le (ai : AiModel) (off : List OfferedTool)
    (tools : List ToolDesc) (strict stream : Bool) :
    ∀ budget msgs r, runLoop ai off tools strict stream budget msgs = .ok r →
      r.rounds ≤ budget + 1 := by
  intro budget
  induction budget with
  | zero =>
    intro msgs r hr
    rw [runLoop] at hr
    cases hpc : processCalls tools strict (effectiveCalls (ai ⟨msgs, false, some off⟩)) with
    | error e => rw [hpc] at hr; simp at hr
    | ok ts =>
      rw [hpc] at hr
      simp only [exBind_ok] at hr
      rw [dif_neg (by simp)] at hr
      simp only [wrapErr_ok, Except.ok.injEq] at hr
      subst hr
      cases hc : (effectiveCalls (ai ⟨msgs, false, some off⟩)).isEmpty <;> simp [hc]
  | succ b ih =>
    intro msgs r hr
    rw [runLoop] at hr
    cases hpc : processCalls tools strict (effectiveCalls (ai ⟨msgs, false, some off⟩)) with
    | error e => rw [hpc] at hr; simp at hr
    | ok ts =>
      rw [hpc] at hr
      simp only [exBind_ok] at hr
      by_cases hcond : 0 < b + 1 ∧
          (effectiveCalls (ai ⟨msgs, false, some off⟩)).isEmpty = false
      · rw [dif_pos hcond] at hr
        simp only [Nat.add_sub_cancel] at hr
        cases hrec : runLoop ai off tools strict stream b
            ((msgs ++ (effectiveCalls (ai ⟨msgs, false, some off⟩)).map assistantTurn)
             ++ ts) with
        | error e => rw [hrec] at hr; simp at hr
        | ok r2 =>
          rw [hrec] at hr
          simp only [exBind_ok, wrapErr_ok, Except.ok.injEq] at hr
          subst hr
          have hle := ih _ r2 hrec
          show r2.rounds + 1 ≤ b + 1 + 1
          omega
      · rw [dif_neg hcond] at hr
        simp only [wrapErr_ok, Except.ok.injEq] at hr
        subst hr
        cases hc : (effectiveCalls (ai ⟨msgs, false, some off⟩)).isEmpty <;> simp [hc]

theorem runLoop_rounds_eq (ai : AiModel) (off : List OfferedTool)
    (tools : List ToolDesc) (strict stream : Bool)
    (hcalls : ∀ inp, inp.toolsOffered.isSome = true → effectiveCalls (ai inp) ≠ []) :
    ∀ budget msgs r, runLoop ai off tools strict stream budget msgs = .ok r →
      r.rounds = budget + 1 := by
  intro budget
  induction budget with
  | zero =>
    intro msgs r hr
    rw [runLoop] at hr
    cases hpc : processCalls tools strict (effectiveCalls (ai ⟨msgs, false, some off⟩)) with
    | error e => rw [hpc] at hr; simp at hr
    | ok ts =>
      rw [hpc] at hr
      simp only [exBind_ok] at hr
      rw [dif_neg (by simp)] at hr
      simp only [wrapErr_ok, Except.ok.injEq] at hr
      subst hr
      have hne := hcalls ⟨msgs, false, some off⟩ rfl
      cases hc : effectiveCalls (ai ⟨msgs, false, some off⟩) with
      | nil => exact absurd hc hne
      | cons a l => simp [hc]
  | succ b ih =>
    intro msgs r hr
    rw [runLoop] at hr
    cases hpc : processCalls tools strict (effectiveCalls (ai ⟨msgs, false, some off⟩)) with
    | error e => rw [hpc] at hr; simp at hr
    | ok ts =>
      rw [hpc] at hr
      simp only [exBind_ok] at hr
      by_cases hcond : 0 < b + 1 ∧
          (effectiveCalls (ai ⟨msgs, false, some off⟩)).isEmpty = false
      · rw [dif_pos hcond] at hr
        simp only [Nat.add_sub_cancel] at hr
        cases hrec : runLoop ai off tools strict stream b
            ((msgs ++ (effectiveCalls (ai ⟨msgs, false, some off⟩)).map assistantTurn)
             ++ ts) with
        | error e => rw [hrec] at hr; simp at hr
        | ok r2 =>
          rw [hrec] at hr
          simp only [exBind_ok, wrapErr_ok, Except.ok.injEq] at hr
          subst hr
          have heqr := ih _ r2 hrec
          show r2.rounds + 1 = b + 1 + 1
          omega
      · exfalso
        have hne := hcalls ⟨msgs, false, some off⟩ rfl
        apply hcond
        constructor
        · omega
        · cases hc : effectiveCalls (ai ⟨msgs, false, some off⟩) with
          | nil => exact absurd hc hne
          | cons a l => rfl

/-- A concrete tool descriptor with declared parameters and an invoker that
resolves to the string `ok`. -/
def wTool : ToolDesc :=
  { name := "t", description := "test tool"
    parameters := some { type := "object", properties := [], required := [] }
    function := some (fun _ => .ok (.str "ok")) }

/-- A model endpoint that requests one call of tool `t` whenever tools are
offered and answers plainly otherwise. -/
def aiAlwaysCalls : AiModel := fun inp =>
  match inp.toolsOffered with
  | some _ => { response := none
                tool_calls := some [some { name := "t", arguments := .obj [] }] }
  | none => { response := some "done", tool_calls := none }

/-- A model endpoint that never requests a tool call. -/
def aiNoCalls : AiModel := fun _ => { response := some "hi", tool_calls := none }

/-- C1: counterexample. With `maxRecursiveToolRuns = 0` and the model
`aiAlwaysCalls` (which requests one tool call on every call made with
tools offered — by definition it returns a call exactly when
`toolsOffered` is `some`), the run still dispatches the first round's tool
calls before the budget check (src/src/runWithTools.ts:150-230), so it
performs 1 tool-dispatch round, exceeding the claimed bound N = 0. -/
theorem C1_counterexample :
    roundsOf (runLoop aiAlwaysCalls [stripTool wTool] [wTool] false false 0 []) = some 1 ∧
    ¬ (1 ≤ 0) := by
  constructor
  · rw [runLoop]
    simp [aiAlwaysCalls, effectiveCalls, processCalls, processOneCall, invokeResultTurn,
      wrapErr, wTool, roundsOf]
  · omega

/-- C1 (amended): with `maxRecursiveToolRuns = N`, a successful run of the
loop performs at most N+1 tool-dispatch rounds — the unconditional first
round plus at most N recursive rounds — and exactly N+1 of them when the
model requests at least one tool call on every call made with tools
offered. -/
theorem C1_recursion_bound (ai : AiModel) (off : List OfferedTool) (tools : List ToolDesc)
    (strict stream : Bool) (n : Nat) (msgs : List Message) (r : RunResult)
    (hr : runLoop ai off tools strict stream n msgs = .ok r) :
    r.rounds ≤ n + 1 ∧
    ((∀ inp, inp.toolsOffered.isSome = true → effectiveCalls (ai inp) ≠ []) →
      r.rounds = n + 1) :=
  ⟨runLoop_rounds_le ai off tools strict stream n msgs r hr,
   fun hcalls => runLoop_rounds_eq ai off tools strict stream hcalls n msgs r hr⟩

/-- C1: witness. A budget of 2 with an always-calling model yields exactly
3 dispatch rounds. -/
theorem C1_recursion_bound_witness :
    roundsOf (runLoop aiAlwaysCalls [stripTool wTool] [wTool] false false 2 []) = some 3 := by
  obtain ⟨r, hr⟩ := runLoop_ok_of_not_strict aiAlwaysCalls [stripTool wTool] [wTool] false 2 []
  have hcalls : ∀ inp, inp.toolsOffered.isSome = true →
      effectiveCalls (aiAlwaysCalls inp) ≠ [] := by
    intro inp hin
    cases hto : inp.toolsOffered with
    | none => rw [hto] at hin; simp at hin
    | some l => simp [aiAlwaysCalls, hto, effectiveCalls]
  have h3 := (C1_recursion_bound aiAlwaysCalls [stripTool wTool] [wTool] false false 2 [] r
    hr).2 hcalls
  rw [hr]
  simp [roundsOf, h3]

/-- Total model calls of a successful `runWithTools` run: the calls made by
the trim step, the tool-offering loop calls, and the final call. -/
def totalModelCalls (res : List AiInput × RunResult) : Nat :=
  res.1.length + res.2.loopCalls.length + 1

/-- C2: with the default identity tool selector, if the model's first
response contains no tool calls, the run issues exactly one additional
final model call with tools omitted and `stream = streamFinalResponse`,
and returns that call's output verbatim; the total number of model calls
is exactly 2. -/
theorem C2_no_tool_call_termination (ai : AiModel) (inputTools : List ToolDesc)
    (strict stream : Bool) (n : Nat) (msgs : List Message)
    (h : effectiveCalls (ai ⟨msgs, false, some (inputTools.map stripTool)⟩) = []) :
    runWithToolsModel ai inputTools defaultTrim strict stream n msgs =
      .ok ([], { output := ai ⟨msgs, stream, none⟩
                 loopCalls := [⟨msgs, false, some (inputTools.map stripTool)⟩]
                 finalInput := ⟨msgs, stream, none⟩
                 rounds := 0 }) ∧
    (∀ res, runWithToolsModel ai inputTools defaultTrim strict stream n msgs = .ok res →
      totalModelCalls res = 2) := by
  have hrl : runLoop ai (inputTools.map stripTool) inputTools strict stream n msgs =
      .ok { output := ai ⟨msgs, stream, none⟩
            loopCalls := [⟨msgs, false, some (inputTools.map stripTool)⟩]
            finalInput := ⟨msgs, stream, none⟩
            rounds := 0 } := by
    rw [runLoop, h]
    simp [processCalls, wrapErr]
  have hmain : runWithToolsModel ai inputTools defaultTrim strict stream n msgs =
      .ok ([], { output := ai ⟨msgs, stream, none⟩
                 loopCalls := [⟨msgs, false, some (inputTools.map stripTool)⟩]
                 finalInput := ⟨msgs, stream, none⟩
                 rounds := 0 }) := by
    simp only [runWithToolsModel, defaultTrim, exBind_ok]
    rw [hrl]
    simp only [exCase_ok]
  refine ⟨hmain, ?_⟩
  intro res hres
  rw [hmain] at hres
  simp only [Except.ok.injEq] at hres
  subst hres
  rfl

/-- C2: witness at a concrete never-calling model. -/
theorem C2_no_tool_call_termination_witness :
    runWithToolsModel aiNoCalls [wTool] defaultTrim false true 0 [] =
      .ok ([], { output := aiNoCalls ⟨[], true, none⟩
                 loopCalls := [⟨[], false, some [stripTool wTool]⟩]
                 finalInput := ⟨[], true, none⟩
                 rounds := 0 }) :=
  (C2_no_tool_call_termination aiNoCalls [wTool] false true 0 [] rfl).1

/-- A tool declaring an invoker but no `parameters` field. -/
def wToolNoParams : ToolDesc :=
  { name := "p", description := "tool without parameters"
    parameters := none
    function := some (fun _ => .ok (.str "ran")) }

/-- C3: counterexample. A request naming `p`, whose descriptor has a
defined invoker but an undefined `parameters` field, is skipped with no
invocation and no tool-result turn — src/src/runWithTools.ts:171 requires
`selectedTool.parameters !== undefined` in addition to the invoker — which
refutes "a tool descriptor is treated as a no-op only when its invoker is
undefined". -/
theorem C3_counterexample :
    processOneCall [wToolNoParams] false { name := "p", arguments := .obj [] } = .ok none :=
  processOneCall_of_no_params [wToolNoParams] false
    { name := "p", arguments := .obj [] } wToolNoParams rfl rfl

/-- C3 (amended): a requested tool call whose name matches a descriptor is
dispatched to the invoker with the request's arguments — and on success
contributes the tool-role turn `{content: serialized(result), name}` —
exactly when both the invoker and the `parameters` field are defined (and,
with strict validation on, the arguments validate); a matched descriptor
whose invoker **or** `parameters` field is undefined is a logged no-op
with no invocation. -/
theorem C3_dispatch_condition (tools : List ToolDesc) (strict : Bool) (tc : ToolCall)
    (sel : ToolDesc) (hfind : tools.find? (fun t => t.name == tc.name) = some sel) :
    ((sel.function = none ∨ sel.parameters = none) →
      processOneCall tools strict tc = .ok none) ∧
    (∀ fn ps res, sel.function = some fn → sel.parameters = some ps →
      (strict = true → validateArgsWithZod tc.arguments ps.properties = .ok true) →
      fn tc.arguments = .ok res →
      processOneCall tools strict tc =
        .ok (some { role := "tool", content := jsonStringify res, name := some sel.name })) := by
  constructor
  · intro hcase
    rcases hcase with h1 | h2
    · exact processOneCall_of_no_fn tools strict tc sel hfind h1
    · exact processOneCall_of_no_params tools strict tc sel hfind h2
  · intro fn ps res hfn hps hval hres
    have hinv : invokeResultTurn sel fn tc.arguments =
        .ok (some { role := "tool", content := jsonStringify res, name := some sel.name }) := by
      unfold invokeResultTurn
      rw [hres]
      simp only [exCase_ok]
    cases strict with
    | false => rw [processOneCall_not_strict tools tc sel fn ps hfind hfn hps, hinv]
    | true => rw [processOneCall_strict_valid tools tc sel fn ps hfind hfn hps (hval rfl), hinv]

/-- C3: witness at a concrete matched tool with both fields defined. -/
theorem C3_dispatch_condition_witness :
    processOneCall [wTool] false { name := "t", arguments := .obj [] } =
      .ok (some { role := "tool", content := jsonStringify (.str "ok"), name := some "t" }) :=
  (C3_dispatch_condition [wTool] false { name := "t", arguments := .obj [] } wTool rfl).2
    (fun _ => .ok (.str "ok")) { type := "object", properties := [], required := [] }
    (.str "ok") rfl rfl (by simp) rfl

/-- A tool declaring one required string parameter `x`. -/
def wToolV : ToolDesc :=
  { name := "v", description := "tool with a string parameter"
    parameters := some { type := "object"
                         properties := [("x", JsonSchema.mk ("string") none [])]
                         required := ["x"] }
    function := some (fun _ => .ok (.str "r")) }

/-- C4: with `strictValidation = true`, a tool call whose arguments fail
schema validation produces no tool-result turn (the result is `.ok none`
independently of the invoker, which is therefore never consulted, and the
loop continues); with `strictValidation = false` the very same arguments
are handed to the invoker with no validation performed. -/
theorem C4_strict_validation_gate (tools : List ToolDesc) (tc : ToolCall)
    (sel : ToolDesc) (fn : Invoker) (ps : ToolParams)
    (hfind : tools.find? (fun t => t.name == tc.name) = some sel)
    (hfn : sel.function = some fn) (hps : sel.parameters = some ps) :
    (validateArgsWithZod tc.arguments ps.properties = .ok false →
      processOneCall tools true tc = .ok none) ∧
    processOneCall tools false tc = invokeResultTurn sel fn tc.arguments :=
  ⟨fun hv => processOneCall_strict_invalid tools tc sel fn ps hfind hfn hps hv,
   processOneCall_not_strict tools tc sel fn ps hfind hfn hps⟩

/-- C4: witness — an empty arguments object failing the required-`x`
schema is rejected under strict validation and passed through unchecked
without it. -/
theorem C4_strict_validation_gate_witness :
    processOneCall [wToolV] true { name := "v", arguments := .obj [] } = .ok none ∧
    processOneCall [wToolV] false { name := "v", arguments := .obj [] } =
      invokeResultTurn wToolV (fun _ => .ok (.str "r")) (.obj []) := by
  have h := C4_strict_validation_gate [wToolV] { name := "v", arguments := .obj [] } wToolV
    (fun _ => .ok (.str "r"))
    { type := "object", properties := [("x", JsonSchema.mk ("string") none [])]
      required := ["x"] }
    rfl rfl rfl
  refine ⟨h.1 ?_, h.2⟩
  simp [validateArgsWithZod, convertFields, convertToZodSchema, zodMatchesProps, getField]

/-- C5: if a tool invoker throws, the appended tool-role turn's content is
`Error executing tool <name>: <reason>` — it embeds the tool's name and the
failure reason — and the run proceeds to completion: the final no-tools
model call is still made (it appears as the run's `finalInput`, with no
tools offered) and its output is returned. -/
theorem C5_invoker_failure_isolation (ai : AiModel) (off : List OfferedTool)
    (tools : List ToolDesc) (stream : Bool) (n : Nat) (m : List Message)
    (tc : ToolCall) (sel : ToolDesc) (fn : Invoker) (ps : ToolParams) (msg : String)
    (hresp : effectiveCalls (ai ⟨m, false, some off⟩) = [tc])
    (hfind : tools.find? (fun t => t.name == tc.name) = some sel)
    (hfn : sel.function = some fn) (hps : sel.parameters = some ps)
    (hthrow : fn tc.arguments = .error msg) :
    ∃ r, runLoop ai off tools false stream n m = .ok r ∧
      ({ role := "tool", content := "Error executing tool " ++ sel.name ++ ": " ++ msg,
         name := some sel.name } : Message) ∈ r.finalInput.messages ∧
      r.finalInput.toolsOffered = none ∧ r.output = ai r.finalInput := by
  obtain ⟨r, hr⟩ := runLoop_ok_of_not_strict ai off tools stream n m
  have hshape := runLoop_final_shape ai off tools false stream n m r hr
  have hone : processOneCall tools false tc =
      .ok (some { role := "tool"
                  content := "Error executing tool " ++ sel.name ++ ": " ++ msg
                  name := some sel.name }) := by
    rw [processOneCall_not_strict tools tc sel fn ps hfind hfn hps]
    unfold invokeResultTurn
    rw [hthrow]
    simp only [exCase_error]
  have hpc : processCalls tools false [tc] =
      .ok [{ role := "tool", content := "Error executing tool " ++ sel.name ++ ": " ++ msg,
             name := some sel.name }] := by
    simp [processCalls, hone]
  have hmem : ({ role := "tool", content := "Error executing tool " ++ sel.name ++ ": " ++ msg,
                 name := some sel.name } : Message) ∈ r.finalInput.messages := by
    rw [runLoop] at hr
    rw [hresp, hpc] at hr
    simp only [exBind_ok] at hr
    by_cases hcond : 0 < n ∧ ([tc] : List ToolCall).isEmpty = false
    · rw [dif_pos hcond] at hr
      cases hrec : runLoop ai off tools false stream (n - 1)
          ((m ++ ([tc] : List ToolCall).map assistantTurn) ++
           [{ role := "tool", content := "Error executing tool " ++ sel.name ++ ": " ++ msg,
              name := some sel.name }]) with
      | error e => rw [hrec] at hr; simp at hr
      | ok r2 =>
        rw [hrec] at hr
        simp only [exBind_ok, wrapErr_ok, Except.ok.injEq] at hr
        subst hr
        obtain ⟨t, ht⟩ := runLoop_msgs_extend ai off tools false stream (n - 1) _ r2 hrec
        show _ ∈ r2.finalInput.messages
        rw [ht]
        simp
    · rw [dif_neg hcond] at hr
      simp only [wrapErr_ok, Except.ok.injEq] at hr
      subst hr
      simp
  exact ⟨r, hr, hmem, hshape.1, hshape.2.2⟩

/-- A tool whose invoker always rejects with reason `boom`. -/
def wToolThrow : ToolDesc :=
  { name := "e", description := "throwing tool"
    parameters := some { type := "object", properties := [], required := [] }
    function := some (fun _ => .error "boom") }

/-- A model endpoint that requests one call of tool `e` whenever tools are
offered. -/
def aiCallsThrow : AiModel := fun inp =>
  match inp.toolsOffered with
  | some _ => { response := none
                tool_calls := some [some { name := "e", arguments := .null }] }
  | none => { response := some "done", tool_calls := none }

/-- C5: witness at a concrete run whose single tool invocation rejects. -/
theorem C5_invoker_failure_isolation_witness :
    ∃ r, runLoop aiCallsThrow [stripTool wToolThrow] [wToolThrow] false false 0 [] = .ok r ∧
      ({ role := "tool", content := "Error executing tool " ++ "e" ++ ": " ++ "boom",
         name := some "e" } : Message) ∈ r.finalInput.messages ∧
      r.finalInput.toolsOffered = none ∧ r.output = aiCallsThrow r.finalInput :=
  C5_invoker_failure_isolation aiCallsThrow [stripTool wToolThrow] [wToolThrow] false 0 []
    { name := "e", arguments := .null } wToolThrow (fun _ => .error "boom")
    { type := "object", properties := [], required := [] } "boom"
    rfl rfl rfl rfl rfl

theorem processCalls_all_unknown (tools : List ToolDesc) (strict : Bool) :
    ∀ calls : List ToolCall,
      (∀ tc ∈ calls, tools.find? (fun t => t.name == tc.name) = none) →
      processCalls tools strict calls = .ok [] := by
  intro calls
  induction calls with
  | nil => intro _; rfl
  | cons tc rest ih =>
    intro h
    have h1 := processOneCall_of_find_none tools strict tc (h tc (by simp))
    have h2 := ih (fun tc2 htc2 => h tc2 (by simp [htc2]))
    simp [processCalls, h1, h2]

/-- C6: a tool-call request naming a tool absent from the supplied
descriptor list contributes no tool-result turn and raises no error to the
caller: when every requested call names an unknown tool, the run (for any
strictness) completes with `.ok`, and every turn of the final conversation
beyond the caller's messages is an assistant turn — no tool-role turn is
ever appended. -/
theorem C6_hallucinated_tool (ai : AiModel) (off : List OfferedTool)
    (tools : List ToolDesc) (strict stream : Bool)
    (hunknown : ∀ inp, ∀ tc ∈ effectiveCalls (ai inp),
      tools.find? (fun t => t.name == tc.name) = none) :
    ∀ n m, ∃ r, runLoop ai off tools strict stream n m = .ok r ∧
      ∀ msg ∈ r.finalInput.messages, msg ∈ m ∨ msg.role = "assistant" := by
  intro n
  induction n with
  | zero =>
    intro m
    have hpc := processCalls_all_unknown tools strict
      (effectiveCalls (ai ⟨m, false, some off⟩)) (fun tc htc => hunknown _ tc htc)
    rw [runLoop, hpc]
    simp only [exBind_ok]
    rw [dif_neg (by simp)]
    refine ⟨_, wrapErr_ok _ _, ?_⟩
    intro msg hmsg
    simp only [List.append_nil, List.mem_append] at hmsg
    rcases hmsg with h1 | h2
    · exact Or.inl h1
    · right
      obtain ⟨tc, htc, rfl⟩ := List.mem_map.mp h2
      rfl
  | succ b ih =>
    intro m
    have hpc := processCalls_all_unknown tools strict
      (effectiveCalls (ai ⟨m, false, some off⟩)) (fun tc htc => hunknown _ tc htc)
    rw [runLoop, hpc]
    simp only [exBind_ok]
    by_cases hcond : 0 < b + 1 ∧ (effectiveCalls (ai ⟨m, false, some off⟩)).isEmpty = false
    · rw [dif_pos hcond]
      simp only [Nat.add_sub_cancel]
      obtain ⟨r2, hr2, hmsgs2⟩ :=
        ih ((m ++ (effectiveCalls (ai ⟨m, false, some off⟩)).map assistantTurn) ++ [])
      rw [hr2]
      simp only [exBind_ok]
      refine ⟨_, wrapErr_ok _ _, ?_⟩
      intro msg hmsg
      rcases hmsgs2 msg hmsg with h1 | h2
      · simp only [List.append_nil, List.mem_append] at h1
        rcases h1 with ha | hb
        · exact Or.inl ha
        · right
          obtain ⟨tc, htc, rfl⟩ := List.mem_map.mp hb
          rfl
      · exact Or.inr h2
    · rw [dif_neg hcond]
      refine ⟨_, wrapErr_ok _ _, ?_⟩
      intro msg hmsg
      simp only [List.append_nil, List.mem_append] at hmsg
      rcases hmsg with h1 | h2
      · exact Or.inl h1
      · right
        obtain ⟨tc, htc, rfl⟩ := List.mem_map.mp h2
        rfl

/-- A model endpoint that requests a call of the undeclared tool `ghost`
whenever tools are offered. -/
def aiGhostCall : AiModel := fun inp =>
  match inp.toolsOffered with
  | some _ => { response := none
                tool_calls := some [some { name := "ghost", arguments := .null }] }
  | none => { response := some "done", tool_calls := none }

/-- C6: witness at a concrete run (strict validation on) whose model keeps
naming an unknown tool. -/
theorem C6_hallucinated_tool_witness :
    ∃ r, runLoop aiGhostCall [stripTool wTool] [wTool] true false 1 [] = .ok r ∧
      ∀ msg ∈ r.finalInput.messages, msg ∈ ([] : List Message) ∨ msg.role = "assistant" := by
  refine C6_hallucinated_tool aiGhostCall [stripTool wTool] [wTool] true false ?_ 1 []
  intro inp tc htc
  cases hto : inp.toolsOffered with
  | none => simp [aiGhostCall, hto, effectiveCalls] at htc
  | some l =>
    simp [aiGhostCall, hto, effectiveCalls] at htc
    subst htc
    rfl

/-- Five schema-only tool descriptors, putting `autoTrimTools` over its
engagement threshold. -/
def fiveTools : List ToolDesc :=
  [{ name := "a", description := "", parameters := none, function := none },
   { name := "b", description := "", parameters := none, function := none },
   { name := "c", description := "", parameters := none, function := none },
   { name := "d", description := "", parameters := none, function := none },
   { name := "e5", description := "", parameters := none, function := none }]

/-- A model endpoint whose `chooseTool` reply carries a JSON-null
`arguments` value. -/
def aiNullArgsChoose : AiModel := fun _ =>
  { response := none, tool_calls := some [some { name := "chooseTool", arguments := .null }] }

/-- C7: counterexample. With 5 candidates and a model response whose first
surviving tool-call has `arguments = null` — a malformed response — the
selector does not pass the candidate set through unfiltered: reading
`chooseToolCalls[0].arguments.tools` (src/src/logger.ts:179) throws a
TypeError that escapes `autoTrimTools`. -/
theorem C7_counterexample :
    autoTrimTools fiveTools aiNullArgsChoose [] =
      .error ("TypeError: Cannot read properties of null reading " ++ "tools") := by
  unfold autoTrimTools
  rw [if_neg (by simp [fiveTools])]
  simp [aiNullArgsChoose, jsGetProp]

/-- C7 (amended): `autoTrimTools` given 4 or fewer candidates returns them
unchanged without issuing a model call; given 5 or more it issues exactly
one extra model call and (a) returns the candidates filtered to the names
listed in the first surviving tool-call's `arguments.tools` array, (b)
passes the full candidate set through unfiltered when the response has no
surviving tool-call or its `tools` value is not an array, but (c) throws
the TypeError when the first surviving tool-call's `arguments` value is
null, instead of failing open. -/
theorem C7_selector_threshold (tools : List ToolDesc) (ai : AiModel) (messages : List Message) :
    (tools.length < 5 → autoTrimTools tools ai messages = .ok (tools, [])) ∧
    (5 ≤ tools.length →
      (((ai (autoTrimInput tools messages)).tool_calls.getD []).filterMap id = [] →
        autoTrimTools tools ai messages = .ok (tools, [autoTrimInput tools messages])) ∧
      (∀ c rest,
        ((ai (autoTrimInput tools messages)).tool_calls.getD []).filterMap id = c :: rest →
        (∀ chosen, jsGetProp c.arguments ("tools") = .ok (some (.arr chosen)) →
          autoTrimTools tools ai messages =
            .ok (tools.filter (fun t => chosen.contains (JsonVal.str t.name)),
                 [autoTrimInput tools messages])) ∧
        (∀ v, jsGetProp c.arguments ("tools") = .ok v → (∀ chosen, v ≠ some (.arr chosen)) →
          autoTrimTools tools ai messages = .ok (tools, [autoTrimInput tools messages])) ∧
        (∀ e, jsGetProp c.arguments ("tools") = .error e →
          autoTrimTools tools ai messages = .error e))) := by
  constructor
  · intro hlt
    unfold autoTrimTools
    rw [if_pos hlt]
  · intro hge
    have hnot : ¬ tools.length < 5 := by omega
    constructor
    · intro hempty
      unfold autoTrimTools
      rw [if_neg hnot, hempty]
    · intro c rest hcons
      refine ⟨?_, ?_, ?_⟩
      · intro chosen hv
        unfold autoTrimTools
        rw [if_neg hnot, hcons]
        simp [hv]
      · intro v hv hnarr
        unfold autoTrimTools
        rw [if_neg hnot, hcons]
        cases v with
        | none => simp [hv]
        | some jv =>
          cases jv with
          | arr chosen => exact absurd rfl (hnarr chosen)
          | null => simp [hv]
          | bool b => simp [hv]
          | num n => simp [hv]
          | str s => simp [hv]
          | obj fs => simp [hv]
      · intro e hv
        unfold autoTrimTools
        rw [if_neg hnot, hcons]
        simp [hv]

/-- C7: witness — below the threshold the candidates pass through with no
model call; at the threshold with an array reply the set is filtered. -/
theorem C7_selector_threshold_witness :
    autoTrimTools [wTool] aiNoCalls [] = .ok ([wTool], []) :=
  (C7_selector_threshold [wTool] aiNoCalls []).1 (by simp)

/-- Whether a model-call input offers no executable invoker: either no
tools are offered, or every offered entry's nested `function` field is
undefined. -/
def offeredNoFn (inp : AiInput) : Bool :=
  match inp.toolsOffered with
  | none => true
  | some l => l.all (fun t => t.function.function.isNone)

theorem stripTool_noFn (chosen : List ToolDesc) :
    (chosen.map stripTool).all (fun t => t.function.function.isNone) = true := by
  simp [List.all_eq_true, stripTool]

/-- C8: every model call made during a run of `runWithTools` offers tools
with no executable invoker: the loop calls carry the offer list rebuilt by
stripping the `function` field from each post-trim descriptor, the final
call offers no tools at all, and — provided the trim step's own calls
offer none (true of the default and of `autoTrimTools`) — so does the
entire trace of the run. -/
theorem C8_no_invoker_offered (ai : AiModel) (inputTools : List ToolDesc)
    (trimF : TrimFunction) (strict stream : Bool) (n : Nat) (msgs : List Message)
    (chosen : List ToolDesc) (trimCalls : List AiInput)
    (res : List AiInput × RunResult)
    (htrim : trimF inputTools ai msgs = .ok (chosen, trimCalls))
    (htc : trimCalls.all offeredNoFn = true)
    (hrun : runWithToolsModel ai inputTools trimF strict stream n msgs = .ok res) :
    (res.1 ++ res.2.loopCalls ++ [res.2.finalInput]).all offeredNoFn = true := by
  unfold runWithToolsModel at hrun
  rw [htrim] at hrun
  simp only [exBind_ok] at hrun
  cases hloop : runLoop ai ((chosen, trimCalls).1.map stripTool) inputTools
      strict stream n msgs with
  | error e => rw [hloop] at hrun; simp at hrun
  | ok r =>
    rw [hloop] at hrun
    simp only [exCase_ok, Except.ok.injEq] at hrun
    subst hrun
    have hlc : r.loopCalls.all offeredNoFn = true := by
      rw [List.all_eq_true]
      intro inp hinp
      have hoff := runLoop_loopCalls_offer ai ((chosen, trimCalls).1.map stripTool)
        inputTools strict stream n msgs r hloop inp hinp
      simp [offeredNoFn, hoff, stripTool_noFn]
    have hfi : offeredNoFn r.finalInput = true := by
      have h := (runLoop_final_shape ai ((chosen, trimCalls).1.map stripTool)
        inputTools strict stream n msgs r hloop).1
      simp [offeredNoFn, h]
    simp [List.all_append, htc, hlc, hfi]

/-- C8: witness at a concrete run with the default trim function — the
single loop call offers only the stripped descriptor and the final call
offers none. -/
theorem C8_no_invoker_offered_witness :
    (([] : List AiInput) ++ [(⟨[], false, some [stripTool wTool]⟩ : AiInput)] ++
      [(⟨[], true, none⟩ : AiInput)]).all offeredNoFn = true := by
  have hrl : runLoop aiNoCalls ([wTool].map stripTool) [wTool] false true 0 [] =
      .ok { output := aiNoCalls ⟨[], true, none⟩
            loopCalls := [⟨[], false, some ([wTool].map stripTool)⟩]
            finalInput := ⟨[], true, none⟩
            rounds := 0 } := by
    rw [runLoop]
    simp [aiNoCalls, effectiveCalls, processCalls]
  have hrun : runWithToolsModel aiNoCalls [wTool] defaultTrim false true 0 [] =
      .ok ([], { output := aiNoCalls ⟨[], true, none⟩
                 loopCalls := [⟨[], false, some ([wTool].map stripTool)⟩]
                 finalInput := ⟨[], true, none⟩
                 rounds := 0 }) := by
    simp only [runWithToolsModel, defaultTrim, exBind_ok]
    rw [hrl]
    simp only [exCase_ok]
  exact C8_no_invoker_offered aiNoCalls [wTool] defaultTrim false true 0 [] [wTool] []
    _ rfl rfl hrun

/-- Whether a possibly-throwing computation resolved. -/
def exIsOk {A : Type} : Except String A → Bool
  | .ok _ => true
  | .error _ => false

@[simp] theorem exIsOk_ok {A : Type} (a : A) : exIsOk (Except.ok a : Except String A) = true := rfl

@[simp] theorem exIsOk_error {A : Type} (e : String) :
    exIsOk (Except.error e : Except String A) = false := rfl

mutual
/-- The schemas `convertToZodSchema` converts without throwing: every node
it actually visits carries a supported `type`, and every visited `array`
node has an `items` schema (`properties` of non-object nodes and `items`
of non-array nodes are never visited). -/
def supportedSchema : JsonSchema → Bool
  | .mk t items props =>
    if t = "string" then true
    else if t = "number" then true
    else if t = "integer" then true
    else if t = "boolean" then true
    else if t = "array" then
      match items with
      | none => false
      | some s => supportedSchema s
    else if t = "object" then supportedFields props
    else false

/-- Every property schema of an object node is supported. -/
def supportedFields : List (String × JsonSchema) → Bool
  | [] => true
  | (_, s) :: rest => supportedSchema s && supportedFields rest
end

@[simp] theorem supportedSchema_mk (t : String) (items : Option JsonSchema)
    (props : List (String × JsonSchema)) :
    supportedSchema (.mk t items props) =
      (if t = "string" then true
       else if t = "number" then true
       else if t = "integer" then true
       else if t = "boolean" then true
       else if t = "array" then
         match items with
         | none => false
         | some s => supportedSchema s
       else if t = "object" then supportedFields props
       else false) := by
  rw [supportedSchema.eq_def]

@[simp] theorem supportedFields_nil : supportedFields [] = true := by
  rw [supportedFields.eq_def]

@[simp] theorem supportedFields_cons (k : String) (s : JsonSchema)
    (rest : List (String × JsonSchema)) :
    supportedFields ((k, s) :: rest) = (supportedSchema s && supportedFields rest) := by
  rw [supportedFields.eq_def]

@[simp] theorem convertToZodSchema_mk (t : String) (items : Option JsonSchema)
    (props : List (String × JsonSchema)) :
    convertToZodSchema (.mk t items props) =
      (if t = "string" then .ok .string
       else if t = "number" then .ok .number
       else if t = "integer" then .ok .int
       else if t = "boolean" then .ok .boolean
       else if t = "array" then
         match items with
         | none => .error ("TypeError: Cannot read properties of undefined reading type")
         | some s => exCase (convertToZodSchema s) (fun z => .ok (.array z)) (fun e => .error e)
       else if t = "object" then
         exCase (convertFields props) (fun zs => .ok (.object zs)) (fun e => .error e)
       else .error ("Unsupported schema type: " ++ t)) := by
  rw [convertToZodSchema.eq_def]

@[simp] theorem convertFields_nil : convertFields [] = .ok [] := by
  rw [convertFields.eq_def]

@[simp] theorem convertFields_cons (k : String) (s : JsonSchema)
    (rest : List (String × JsonSchema)) :
    convertFields ((k, s) :: rest) =
      exBind (convertToZodSchema s) (fun z =>
        exBind (convertFields rest) (fun zs => .ok ((k, z) :: zs))) := by
  rw [convertFields.eq_def]

mutual
theorem convert_isOk_eq : ∀ s : JsonSchema, exIsOk (convertToZodSchema s) = supportedSchema s
  | .mk t items props => by
    rw [convertToZodSchema.eq_def, supportedSchema.eq_def]
    by_cases h1 : t = "string"
    · simp [h1]
    by_cases h2 : t = "number"
    · simp [h1, h2]
    by_cases h3 : t = "integer"
    · simp [h1, h2, h3]
    by_cases h4 : t = "boolean"
    · simp [h1, h2, h3, h4]
    by_cases h5 : t = "array"
    · subst h5
      cases items with
      | none => simp
      | some s =>
        have hrec := convert_isOk_eq s
        cases hconv : convertToZodSchema s with
        | ok z =>
          have hsup : supportedSchema s = true := by rw [← hrec, hconv]; rfl
          simp [hconv, hsup]
        | error e =>
          have hsup : supportedSchema s = false := by rw [← hrec, hconv]; rfl
          simp [hconv, hsup]
    by_cases h6 : t = "object"
    · subst h6
      have hrec := convertFields_isOk_eq props
      cases hconv : convertFields props with
      | ok zs =>
        have hsup : supportedFields props = true := by rw [← hrec, hconv]; rfl
        simp [hconv, hsup]
      | error e =>
        have hsup : supportedFields props = false := by rw [← hrec, hconv]; rfl
        simp [hconv, hsup]
    simp [h1, h2, h3, h4, h5, h6]

theorem convertFields_isOk_eq :
    ∀ l : List (String × JsonSchema), exIsOk (convertFields l) = supportedFields l
  | [] => by rw [convertFields.eq_def, supportedFields.eq_def]; rfl
  | (k, s) :: rest => by
    rw [convertFields.eq_def, supportedFields.eq_def]
    have h1 := convert_isOk_eq s
    have h2 := convertFields_isOk_eq rest
    cases hc : convertToZodSchema s with
    | error e =>
      have hsup : supportedSchema s = false := by rw [← h1, hc]; rfl
      simp [hc, hsup]
    | ok z =>
      have hsup : supportedSchema s = true := by rw [← h1, hc]; rfl
      cases hr : convertFields rest with
      | error e2 =>
        have hsup2 : supportedFields rest = false := by rw [← h2, hr]; rfl
        simp [hc, hr, hsup, hsup2]
      | ok zs =>
        have hsup2 : supportedFields rest = true := by rw [← h2, hr]; rfl
        simp [hc, hr, hsup, hsup2]
end

/-- C9: counterexample. The properties map `{a: {type: "array"}}` declares
only the type `array` — a member of the supported list — anywhere in it
(the node has no `items` and no `properties`, so no other type is declared
recursively), yet `validateArgsWithZod` throws for every arguments value
instead of returning a Bool: the schema construction (outside the
`try`/`catch`, src/src/logger.ts:106-111) recurses into the absent
`items` and dies with a TypeError. -/
theorem C9_counterexample :
    validateArgsWithZod (.obj []) [("a", JsonSchema.mk ("array") none [])] =
      .error ("TypeError: Cannot read properties of undefined reading type") ∧
    JsonSchema.typeOf (JsonSchema.mk ("array") none [])
      ∈ ["string", "number", "integer", "boolean", "array", "object"] := by
  constructor
  · unfold validateArgsWithZod
    simp
  · simp [JsonSchema.typeOf]

/-- C9 (amended): `validateArgsWithZod` returns a Bool verdict — and never
throws — exactly when schema construction succeeds, i.e. when every node
`convertToZodSchema` visits carries a supported type (string, number,
integer, boolean, array, object) and every visited array node carries an
`items` schema; otherwise construction throws (an unsupported-schema-type
error for an unknown `type`, a TypeError for an array without `items`)
before the candidate arguments are examined: the thrown error is
identical for every arguments value. -/
theorem C9_validator_totality (properties : List (String × JsonSchema)) (args : JsonVal) :
    (supportedFields properties = true → ∃ b, validateArgsWithZod args properties = .ok b) ∧
    (supportedFields properties = false →
      ∃ e, ∀ args2, validateArgsWithZod args2 properties = .error e) := by
  have h := convertFields_isOk_eq properties
  constructor
  · intro hs
    rw [hs] at h
    cases hc : convertFields properties with
    | error e => rw [hc] at h; simp at h
    | ok zs =>
      refine ⟨(match args with
               | .obj fields => zodMatchesProps zs fields
               | _ => false), ?_⟩
      unfold validateArgsWithZod
      rw [hc]
      simp only [exBind_ok]
  · intro hs
    rw [hs] at h
    cases hc : convertFields properties with
    | ok zs => rw [hc] at h; simp at h
    | error e =>
      refine ⟨e, fun args2 => ?_⟩
      unfold validateArgsWithZod
      rw [hc]
      simp only [exBind_error]

/-- C9: witness — a supported one-property schema yields a Bool verdict,
and an unsupported declared type (`wacky`) throws the same
unsupported-schema-type error for two different argument values. -/
theorem C9_validator_totality_witness :
    (∃ b, validateArgsWithZod (.obj [("x", JsonVal.str "hi")])
      [("x", JsonSchema.mk ("string") none [])] = .ok b) ∧
    (∃ e, ∀ args2, validateArgsWithZod args2 [("y", JsonSchema.mk ("wacky") none [])] =
      .error e) := by
  constructor
  · exact (C9_validator_totality [("x", JsonSchema.mk ("string") none [])]
      (.obj [("x", JsonVal.str "hi")])).1
      (by simp)
  · exact (C9_validator_totality [("y", JsonSchema.mk ("wacky") none [])]
      (.obj [])).2
      (by simp)

/-- C10: counterexample. For `args = {path: {id: "1"}}` — non-empty and
containing the claimed recognized sub-key `path` — the guard still fires,
because the source checks only `header`/`query`/`cookie`/`formData`/`body`
(src/src/createToolsFromOpenAPISpec.ts:313-320); the whole arguments
object (gaining a self-referential `query` key, the `none` entry) becomes
the query-parameter source, refuting "when any recognized sub-key is
present, this re-interpretation does not happen". -/
theorem C10_counterexample :
    hallucinatedQueryCond [("path", JsonVal.obj [("id", JsonVal.str "1")])] = true ∧
    queryEntriesSource [("path", JsonVal.obj [("id", JsonVal.str "1")])] =
      [("path", some (JsonVal.obj [("id", JsonVal.str "1")])), ("query", none)] := by
  constructor
  · rfl
  · rfl

/-- C10 (amended): for an invoker built by `createToolsFromOpenAPISpec`,
the flat-arguments heuristic fires exactly when the arguments object is
non-empty and each of `query`, `header`, `cookie`, `formData`, `body` is
absent or falsy — `path` is not consulted. When it fires, `args.query =
args` makes the whole, now self-referential, object the query-parameter
source; when one of the five checked keys is present with a truthy value,
the heuristic does not fire and only `args.query` is enumerated into the
query string. -/
theorem C10_flat_args_heuristic (args : List (String × JsonVal)) :
    (args ≠ [] →
      (["header", "query", "cookie", "formData", "body"].all
        (fun k => !(fieldTruthy args k))) = true →
      hallucinatedQueryCond args = true ∧ queryEntriesSource args = setSelfQuery args) ∧
    (∀ k, k ∈ ["header", "query", "cookie", "formData", "body"] →
      fieldTruthy args k = true →
      hallucinatedQueryCond args = false ∧
      queryEntriesSource args =
        (match getField args "query" with
         | some v => jsEnumEntries v
         | none => [])) := by
  constructor
  · intro hne hall
    simp only [List.all_cons, List.all_nil, Bool.and_true, Bool.and_eq_true,
      Bool.not_eq_true'] at hall
    obtain ⟨hh, hq, hc, hf, hb⟩ := hall
    have hcond : hallucinatedQueryCond args = true := by
      unfold hallucinatedQueryCond
      simp [hh, hq, hc, hf, hb, List.length_pos, hne]
    exact ⟨hcond, by simp [queryEntriesSource, hcond]⟩
  · intro k hk htruthy
    have hcond : hallucinatedQueryCond args = false := by
      unfold hallucinatedQueryCond
      fin_cases hk <;> simp [htruthy]
    exact ⟨hcond, by simp [queryEntriesSource, hcond]⟩

/-- C10: witness — a flat `{foo: "bar"}` arguments object is re-interpreted
as the query source; a `{query: {a: "1"}}` object is not, and its `query`
sub-object alone is enumerated. -/
theorem C10_flat_args_heuristic_witness :
    (hallucinatedQueryCond [("foo", JsonVal.str "bar")] = true ∧
     queryEntriesSource [("foo", JsonVal.str "bar")] =
       setSelfQuery [("foo", JsonVal.str "bar")]) ∧
    (hallucinatedQueryCond [("query", JsonVal.obj [("a", JsonVal.str "1")])] = false ∧
     queryEntriesSource [("query", JsonVal.obj [("a", JsonVal.str "1")])] =
       (match getField [("query", JsonVal.obj [("a", JsonVal.str "1")])] "query" with
        | some v => jsEnumEntries v
        | none => [])) := by
  constructor
  · exact (C10_flat_args_heuristic [("foo", JsonVal.str "bar")]).1 (by simp) (by rfl)
  · exact (C10_flat_args_heuristic [("query", JsonVal.obj [("a", JsonVal.str "1")])]).2
      "query" (by simp) (by rfl)
